import Mathlib

/-!
Verification of the MCL-OKD repository's multi-branch ResNet
(`src/models/okddip_resnet.py`) and CIFAR training script
(`src/main_cifar_baseline.py`).

Tensors are embedded per batch element: a feature vector or logit vector is a
`List ℚ` (exact rationals idealize the floating-point arithmetic), and a
matrix whose last axis in the Python code is the branch axis is stored
branch-major as a `List (List ℚ)` — entry `i` of the outer list is the slice
at index `i` along the code's branch axis.  Convolutional stages, whose
internals no claim inspects, are carried as abstract functions inside the
model record; everything downstream of the pooled features (the linear
classifiers, the query/key projections, the energy/softmax/fusion algebra of
`ResNet._forward`) is embedded concretely.  The softmax's exponential is a
parameter `e : ℚ → ℚ`; the real `exp` is strictly positive, which is the only
property the softmax facts use.
-/

namespace MCLOKD

/-- Dot product of two rational vectors. -/
def dot (u v : List ℚ) : ℚ := (List.zipWith (· * ·) u v).sum

/-- Pointwise vector addition (used for the linear layer's bias and the
residual accumulation `out += identity`). -/
def addVec (u v : List ℚ) : List ℚ := List.zipWith (· + ·) u v

/-- Pointwise ReLU, modelling `nn.ReLU` on a flattened feature vector. -/
def reluVec (v : List ℚ) : List ℚ := v.map (fun t => max t 0)

/-- An `nn.Linear` layer: a weight matrix stored as rows (one row per output
feature) and an optional bias (`none` models construction with
`bias=False`, as for `query_weight` / `key_weight`). -/
structure Linear where
  weight : List (List ℚ)
  bias : Option (List ℚ)
deriving DecidableEq

/-- Application of a linear layer: `W x` plus the bias when present. -/
def Linear.apply (l : Linear) (x : List ℚ) : List ℚ :=
  let wx := l.weight.map (fun row => dot row x)
  match l.bias with
  | none => wx
  | some b => addVec wx b

/-- Row softmax, modelling `F.softmax(·, dim=-1)` on one row: entry `v` maps
to `e v / Σ e`.  `e` abstracts the exponential. -/
def softmaxRow (e : ℚ → ℚ) (r : List ℚ) : List ℚ :=
  r.map (fun v => e v / (r.map e).sum)

/-- The multi-branch network of `okddip_resnet.py` (`class ResNet`), per
batch element.  `trunk` abstracts `conv1 → bn1 → relu → layer1 → layer2`
(lines 189-194); `tailPooled i` abstracts branch `i`'s
`layer3_i → avgpool → view` pipeline (each branch independently
parameterized); `classifier i` is the per-branch `nn.Linear`
(`classifier_i`); `query_weight` and `key_weight` are the two shared
bias-free linear maps created once in `ResNet.__init__` (lines 146-147). -/
structure OkddipResNet where
  number_net : Nat
  num_classes : Nat
  trunk : List ℚ → List ℚ
  tailPooled : Nat → List ℚ → List ℚ
  classifier : Nat → Linear
  query_weight : Linear
  key_weight : Linear

/-- Branch indices that enter the stacked computation of `_forward`:
branch `0` is processed before the loop (lines 197-208) and the loop
`for i in range(1, self.number_net - 1)` (line 210) adds branches
`1 .. number_net - 2`.  Branch `number_net - 1` is deliberately absent. -/
def stackIdxs (n : Nat) : List Nat := 0 :: List.range' 1 (n - 2)

/-- Pooled feature of branch `i`: `layer3_i(layer2(...)) → avgpool → view`
(lines 197-199 / 211-213). -/
def pooledFeat (m : OkddipResNet) (input : List ℚ) (i : Nat) : List ℚ :=
  m.tailPooled i (m.trunk input)

/-- The raw branch-logit stack `pro` (lines 206-208, 220-223): slice `i` is
`classifier_i` applied to branch `i`'s pooled feature, for the stacked
branches only. -/
def proOf (m : OkddipResNet) (input : List ℚ) : List (List ℚ) :=
  (stackIdxs m.number_net).map (fun i => (m.classifier i).apply (pooledFeat m input i))

/-- The stacked query embeddings `proj_q` (lines 202-203, 215-217, 224):
every stacked branch uses the single shared `query_weight`. -/
def projQOf (m : OkddipResNet) (input : List ℚ) : List (List ℚ) :=
  (stackIdxs m.number_net).map (fun i => m.query_weight.apply (pooledFeat m input i))

/-- The stacked key embeddings `proj_k` (lines 204-205, 216-218, 225):
every stacked branch uses the single shared `key_weight`. -/
def projKOf (m : OkddipResNet) (input : List ℚ) : List (List ℚ) :=
  (stackIdxs m.number_net).map (fun i => m.key_weight.apply (pooledFeat m input i))

/-- The energy matrix `torch.bmm(proj_q, proj_k.permute(0, 2, 1))`
(line 227): entry `(i, j)` is the dot product of query `i` with key `j`. -/
def energyOf (m : OkddipResNet) (input : List ℚ) : List (List ℚ) :=
  (projQOf m input).map (fun q => (projKOf m input).map (fun k => dot q k))

/-- The attention matrix `F.softmax(energy, dim=-1)` (line 228): each row of
the energy matrix is normalized by the row softmax. -/
def attentionOf (e : ℚ → ℚ) (m : OkddipResNet) (input : List ℚ) : List (List ℚ) :=
  (energyOf m input).map (softmaxRow e)

/-- The fused output `x_m = torch.bmm(pro, attention.permute(0, 2, 1))`
(line 229), stored branch-major: slice `i`, class entry `c`, is
`Σ_j attention[i][j] * pro[j][c]`. -/
def xmOf (e : ℚ → ℚ) (m : OkddipResNet) (input : List ℚ) : List (List ℚ) :=
  (attentionOf e m input).map (fun row =>
    (List.range m.num_classes).map (fun c =>
      (List.zipWith (fun w p => w * p.getD c 0) row (proOf m input)).sum))

/-- The standalone last-branch output `temp_out` (lines 231-234): branch
`number_net - 1`'s tail and classifier, computed outside the stack. -/
def tempOutOf (m : OkddipResNet) (input : List ℚ) : List ℚ :=
  (m.classifier (m.number_net - 1)).apply (pooledFeat m input (m.number_net - 1))

/-- The return value of `ResNet._forward` (line 236):
`(pro, x_m, temp_out)`. -/
def forward (e : ℚ → ℚ) (m : OkddipResNet) (input : List ℚ) :
    List (List ℚ) × List (List ℚ) × List ℚ :=
  (proOf m input, xmOf e m input, tempOutOf m input)

/-- Well-formedness of the classifier layers: each `classifier_i` is
`nn.Linear(64 * expansion, num_classes)`, so it has `num_classes` output
rows and (when present) a bias of length `num_classes`. -/
def WellFormed (m : OkddipResNet) : Prop :=
  ∀ i, (m.classifier i).weight.length = m.num_classes ∧
    ∀ b ∈ (m.classifier i).bias, b.length = m.num_classes

/-- A concrete two-branch instance used to evaluate the forward pass on a
closed input: branch `i`'s pooled feature is the one-element vector `[i]`,
each classifier is the identity on one class, and the projections are
one-dimensional. -/
def tinyNet : OkddipResNet where
  number_net := 2
  num_classes := 1
  trunk := fun x => x
  tailPooled := fun i _ => [(i : ℚ)]
  classifier := fun _ => ⟨[[1]], some [0]⟩
  query_weight := ⟨[[1]], none⟩
  key_weight := ⟨[[1]], none⟩

/-- A concrete strictly positive stand-in for the exponential, used to
evaluate the softmax on closed inputs. -/
def oneExp : ℚ → ℚ := fun _ => 1

/-! Residual blocks and stage construction (`_make_layer`, lines 163-186). -/

/-- Configuration of one residual block as constructed by
`ResNet._make_layer`: the block's input channel count, planes, stride,
whether a learned `conv1x1 + norm` downsample shortcut was attached, and
the dilation passed to it. -/
structure BlockCfg where
  inplanes : Nat
  planes : Nat
  stride : Nat
  hasDownsample : Bool
  dilation : Nat
deriving DecidableEq

/-- The mutable construction state of `ResNet`: `self.inplanes` and
`self.dilation`. -/
structure LayerState where
  inplanes : Nat
  dilation : Nat
deriving DecidableEq

/-- Embedding of `ResNet._make_layer(block, planes, blocks, stride, dilate)`
(lines 163-186).  `expansion` is `block.expansion`.  When `dilate` is set
the dilation is multiplied by the stride and the stride is reset to 1; a
downsample shortcut is attached to the first block exactly when
`stride != 1 or self.inplanes != planes * block.expansion`; the remaining
`blocks - 1` blocks get stride 1, no downsample, and the updated input
channel count `planes * expansion`. -/
def _make_layer (expansion : Nat) (st : LayerState) (planes blocks stride0 : Nat)
    (dilate : Bool) : List BlockCfg × LayerState :=
  let previous_dilation := st.dilation
  let dilation := if dilate then st.dilation * stride0 else st.dilation
  let stride := if dilate then 1 else stride0
  let first : BlockCfg :=
    ⟨st.inplanes, planes, stride,
      stride != 1 || st.inplanes != planes * expansion, previous_dilation⟩
  let inplanes := planes * expansion
  let rest := List.replicate (blocks - 1) (⟨inplanes, planes, 1, false, dilation⟩ : BlockCfg)
  (first :: rest, ⟨inplanes, dilation⟩)

/-- The residual block forward (`BasicBlock.forward`, lines 40-56, and
identically `Bottleneck.forward`): `main` abstracts the convolutional main
path, the identity is the raw input unless a downsample function is
installed, and the output is the nonlinearity of their sum. -/
def blockForward (main : List ℚ → List ℚ) (downsample : Option (List ℚ → List ℚ))
    (x : List ℚ) : List ℚ :=
  let identity :=
    match downsample with
    | some f => f x
    | none => x
  reluVec (addVec (main x) identity)

/-! Construction-time validation (`BasicBlock.__init__` lines 27-30,
`ResNet.__init__` lines 120-126).  The Python constructors raise before any
forward pass can run; the embedding returns `Except.error` in exactly those
cases, producing no model value. -/

/-- Result of a successful `BasicBlock.__init__`. -/
structure BasicBlockCfg where
  inplanes : Nat
  planes : Nat
  stride : Nat
deriving DecidableEq

/-- Embedding of the validation in `BasicBlock.__init__` (lines 27-30):
`groups != 1 or base_width != 64` raises `ValueError`, then `dilation > 1`
raises `NotImplementedError`. -/
def basicBlockInit (inplanes planes stride groups base_width dilation : Nat) :
    Except String BasicBlockCfg :=
  if groups ≠ 1 ∨ base_width ≠ 64 then
    Except.error "BasicBlock only supports groups=1 and base_width=64"
  else if 1 < dilation then
    Except.error "Dilation > 1 not supported in BasicBlock"
  else
    Except.ok ⟨inplanes, planes, stride⟩

/-- Embedding of the `replace_stride_with_dilation` validation in
`ResNet.__init__` (lines 120-126): `None` defaults to
`[False, False, False]`, and any other value of length other than 3 raises
`ValueError`. -/
def resnetInitCheck (replace_stride_with_dilation : Option (List Bool)) :
    Except String (List Bool) :=
  let r := replace_stride_with_dilation.getD [false, false, false]
  if r.length ≠ 3 then
    Except.error "replace_stride_with_dilation should be None or a 3-element tuple"
  else
    Except.ok r

/-! The learning-rate schedule (`adjust_lr`, `main_cifar_baseline.py`
lines 89-103) and the checkpoint loop (`main`, lines 203-224). -/

/-- Fuel-driven core of Python's `bisect.bisect_right` binary search:
maintains `lo < hi` bounds, probes `mid = (lo + hi) / 2`, and moves `hi`
down when `x < a[mid]`, `lo` up otherwise.  The fuel only bounds the
iteration count; `bisect_right` supplies enough for the gap to close. -/
def bisect_right_go (a : List Nat) (x : Nat) : Nat → Nat → Nat → Nat
  | 0, lo, _ => lo
  | fuel + 1, lo, hi =>
    if lo < hi then
      if x < a.getD ((lo + hi) / 2) 0 then bisect_right_go a x fuel lo ((lo + hi) / 2)
      else bisect_right_go a x fuel ((lo + hi) / 2 + 1) hi
    else lo

/-- Python's `bisect.bisect_right(a, x)`: the insertion point to the right
of any entries equal to `x`, computed by binary search over `[0, len a)`. -/
def bisect_right (a : List Nat) (x : Nat) : Nat :=
  bisect_right_go a x a.length 0 a.length

/-- Embedding of `adjust_lr` (lines 89-103).  `cosf` abstracts
`t ↦ cos(π t)` applied to the ratio `T_cur / T_i`; `Nat.log2` of the
floor of `epoch / sgdr_t + 1` equals `int(math.log2(epoch / sgdr_t + 1))`
under exact-real semantics because `2^i ≤ r` iff `2^i ≤ ⌊r⌋` for integral
`2^i`.  The multistep branch is
`init_lr * 0.1 ** bisect_right(milestones, epoch)`; any other `lr_type`
leaves the initialization `cur_lr = 0.`. -/
def adjust_lr (lr_type : String) (init_lr : ℚ) (sgdr_t : Nat) (milestones : List Nat)
    (cosf : ℚ → ℚ) (epoch : Nat) (eta_max eta_min : ℚ) : ℚ :=
  if lr_type = "SGDR" then
    let i := Nat.log2 ((epoch + sgdr_t) / sgdr_t)
    let t_cur : ℚ := (epoch : ℚ) - (sgdr_t : ℚ) * ((2 : ℚ) ^ i - 1)
    let t_i : ℚ := (sgdr_t : ℚ) * (2 : ℚ) ^ i
    eta_min + (1 / 2) * (eta_max - eta_min) * (1 + cosf (t_cur / t_i))
  else if lr_type = "multistep" then
    init_lr * (1 / 10) ^ bisect_right milestones epoch
  else 0

/-- The call `lr = adjust_lr(optimizer, epoch)` in `train` (line 113):
`eta_max` and `eta_min` are not passed, so the Python defaults
`eta_max=0.1, eta_min=0.` apply. -/
def trainAdjustLr (lr_type : String) (init_lr : ℚ) (sgdr_t : Nat)
    (milestones : List Nat) (cosf : ℚ → ℚ) (epoch : Nat) : ℚ :=
  adjust_lr lr_type init_lr sgdr_t milestones cosf epoch (1 / 10) 0

/-- The checkpoint record written each epoch (lines 207-212):
`{'net': ..., 'acc': ..., 'epoch': ..., 'optimizer': ...}`.  `W` and `O`
abstract the serialized network and optimizer states. -/
structure Checkpoint (W O : Type) where
  net : W
  acc : ℚ
  epoch : Nat
  optimizer : O
deriving DecidableEq

/-- Persistent training state: the tracked global `best_acc`, the contents
of the fixed checkpoint path, and the contents of the best-model path
(`none` while a file has not been written yet). -/
structure TrainFiles (W O : Type) where
  bestAcc : ℚ
  ckptFile : Option (Checkpoint W O)
  bestFile : Option (Checkpoint W O)
deriving DecidableEq

/-- One iteration of the epoch loop in `main` (lines 203-224): run
`train`/`test` (abstracted by `netOf`, `optOf`, `accOf` giving the post-epoch
network state, optimizer state and test accuracy), write the checkpoint to
the fixed path, and when the accuracy strictly exceeds `best_acc`, update
`best_acc` and copy the checkpoint to the best path. -/
def epochBody {W O : Type} (netOf : Nat → W) (optOf : Nat → O) (accOf : Nat → ℚ)
    (s : TrainFiles W O) (epoch : Nat) : TrainFiles W O :=
  let acc := accOf epoch
  let state : Checkpoint W O := ⟨netOf epoch, acc, epoch, optOf epoch⟩
  let s1 : TrainFiles W O := ⟨s.bestAcc, some state, s.bestFile⟩
  if s1.bestAcc < acc then ⟨acc, s1.ckptFile, some state⟩ else s1

/-- The epoch loop `for epoch in range(start_epoch, args.epochs)`
(line 203), folding `epochBody` over the epoch indices. -/
def mainLoop {W O : Type} (netOf : Nat → W) (optOf : Nat → O) (accOf : Nat → ℚ)
    (start_epoch epochs : Nat) (s0 : TrainFiles W O) : TrainFiles W O :=
  (List.range' start_epoch (epochs - start_epoch)).foldl (epochBody netOf optOf accOf) s0

/-! General list lemmas used by the claims. -/

theorem getD_map_range {α : Type} (f : Nat → α) (k i : Nat) (d : α) (h : i < k) :
    ((List.range k).map f).getD i d = f i := by
  rw [List.getD_eq_getElem _ _ (by simpa using h)]
  simp

theorem sum_map_div (l : List ℚ) (S : ℚ) : (l.map (fun v => v / S)).sum = l.sum / S := by
  induction l with
  | nil => simp
  | cons a t ih => simp [ih, add_div]

theorem zipWith_sum_eq_range {α β : Type} (f : α → β → ℚ) (da : α) (db : β) :
    ∀ (n : Nat) (as : List α) (bs : List β), as.length = n → bs.length = n →
      (List.zipWith f as bs).sum =
        ((List.range n).map (fun j => f (as.getD j da) (bs.getD j db))).sum := by
  intro n
  induction n with
  | zero =>
    intro as bs ha hb
    rw [List.length_eq_zero] at ha hb
    subst ha; subst hb; simp
  | succ k ih =>
    intro as bs ha hb
    cases as with
    | nil => simp at ha
    | cons a as2 =>
      cases bs with
      | nil => simp at hb
      | cons b bs2 =>
        simp only [List.zipWith_cons_cons, List.sum_cons, List.range_succ_eq_map,
          List.map_cons, List.map_map]
        have h1 : (a :: as2).getD 0 da = a := rfl
        have h2 : (b :: bs2).getD 0 db = b := rfl
        rw [h1, h2]
        have htail :
            (List.range k).map
                ((fun j => f ((a :: as2).getD j da) ((b :: bs2).getD j db)) ∘ Nat.succ) =
              (List.range k).map (fun j => f (as2.getD j da) (bs2.getD j db)) := rfl
        rw [htail, ← ih as2 bs2 (by simpa using ha) (by simpa using hb)]

/-! Softmax lemmas. -/

theorem sum_map_exp_pos (e : ℚ → ℚ) (r : List ℚ) (he : ∀ t, 0 < e t) (hne : r ≠ []) :
    0 < (r.map e).sum := by
  apply List.sum_pos
  · intro a ha
    rw [List.mem_map] at ha
    obtain ⟨u, _, rfl⟩ := ha
    exact he u
  · simpa [List.map_eq_nil_iff] using hne

theorem softmaxRow_sum (e : ℚ → ℚ) (r : List ℚ) (hpos : 0 < (r.map e).sum) :
    (softmaxRow e r).sum = 1 := by
  have h : softmaxRow e r = (r.map e).map (fun t => t / (r.map e).sum) := by
    simp [softmaxRow, List.map_map]
  rw [h, sum_map_div, div_self (ne_of_gt hpos)]

theorem softmaxRow_nonneg (e : ℚ → ℚ) (r : List ℚ) (he : ∀ t, 0 < e t) (hne : r ≠ []) :
    ∀ w ∈ softmaxRow e r, 0 ≤ w := by
  intro w hw
  rw [softmaxRow, List.mem_map] at hw
  obtain ⟨v, _, rfl⟩ := hw
  exact le_of_lt (div_pos (he v) (sum_map_exp_pos e r he hne))

/-! Structural facts about the forward pass. -/

theorem stackIdxs_ne_nil (n : Nat) : stackIdxs n ≠ [] := by simp [stackIdxs]

theorem length_stackIdxs (n : Nat) (h : 2 ≤ n) : (stackIdxs n).length = n - 1 := by
  simp [stackIdxs]
  omega

theorem stackIdxs_eq_range (n : Nat) (h : 2 ≤ n) : stackIdxs n = List.range (n - 1) := by
  have h1 : n - 1 = (n - 2) + 1 := by omega
  rw [List.range_eq_range', h1, List.range'_succ]
  rfl

theorem proOf_length (m : OkddipResNet) (x : List ℚ) (h : 2 ≤ m.number_net) :
    (proOf m x).length = m.number_net - 1 := by
  simp [proOf, length_stackIdxs _ h]

theorem attentionOf_length (e : ℚ → ℚ) (m : OkddipResNet) (x : List ℚ)
    (h : 2 ≤ m.number_net) :
    (attentionOf e m x).length = m.number_net - 1 := by
  simp [attentionOf, energyOf, projQOf, length_stackIdxs _ h]

theorem attention_row_shape (e : ℚ → ℚ) (m : OkddipResNet) (x : List ℚ) :
    ∀ row ∈ attentionOf e m x,
      ∃ r, r ∈ energyOf m x ∧ row = softmaxRow e r ∧ r ≠ [] ∧
        r.length = (stackIdxs m.number_net).length := by
  intro row hrow
  rw [attentionOf, List.mem_map] at hrow
  obtain ⟨r, hr, rfl⟩ := hrow
  refine ⟨r, hr, rfl, ?_, ?_⟩
  · rw [energyOf, List.mem_map] at hr
    obtain ⟨q, _, rfl⟩ := hr
    simp [projKOf, List.map_eq_nil_iff, stackIdxs_ne_nil]
  · rw [energyOf, List.mem_map] at hr
    obtain ⟨q, _, rfl⟩ := hr
    simp [projKOf]

theorem Linear.apply_length (l : Linear) (x : List ℚ) (n : Nat)
    (hw : l.weight.length = n) (hb : ∀ b ∈ l.bias, b.length = n) :
    (l.apply x).length = n := by
  cases h : l.bias with
  | none => simp [Linear.apply, h, hw]
  | some b =>
    have hbl : b.length = n := hb b (by simp [Option.mem_def, h])
    simp [Linear.apply, h, addVec, hw, hbl]

/-! Correctness of the embedded `bisect_right` binary search on sorted
milestone lists. -/

theorem countP_eq_of_cut (x : Nat) :
    ∀ (a : List Nat) (k : Nat), k ≤ a.length →
      (∀ i, i < k → a.getD i 0 ≤ x) →
      (∀ i, k ≤ i → i < a.length → x < a.getD i 0) →
      a.countP (fun v => decide (v ≤ x)) = k := by
  intro a
  induction a with
  | nil =>
    intro k hk _ _
    simp only [List.length_nil, Nat.le_zero] at hk
    simp [hk]
  | cons hd tl ih =>
    intro k hk h1 h2
    cases k with
    | zero =>
      have hx : x < hd := by
        have := h2 0 (Nat.le_refl 0) (by simp)
        simpa using this
      have ht : tl.countP (fun v => decide (v ≤ x)) = 0 := by
        apply ih 0 (Nat.zero_le _)
        · intro i hi
          exact absurd hi (Nat.not_lt_zero i)
        · intro i _ hi
          have := h2 (i + 1) (Nat.zero_le _) (by simpa using Nat.succ_lt_succ hi)
          simpa using this
      simp [List.countP_cons, ht, Nat.not_le.mpr hx]
    | succ k2 =>
      have hhd : hd ≤ x := by
        have := h1 0 (Nat.succ_pos k2)
        simpa using this
      have ht : tl.countP (fun v => decide (v ≤ x)) = k2 := by
        apply ih k2 (by simp at hk; omega)
        · intro i hi
          have := h1 (i + 1) (Nat.succ_lt_succ hi)
          simpa using this
        · intro i hki hi
          have := h2 (i + 1) (Nat.succ_le_succ hki) (by simpa using Nat.succ_lt_succ hi)
          simpa using this
      simp [List.countP_cons, ht, hhd]

theorem sorted_getD_mono (a : List Nat) (hs : List.Pairwise (· ≤ ·) a)
    (i j : Nat) (hij : i ≤ j) (hj : j < a.length) : a.getD i 0 ≤ a.getD j 0 := by
  rcases Nat.lt_or_ge i j with hlt | hge
  · have hi : i < a.length := Nat.lt_trans hlt hj
    rw [List.getD_eq_getElem a 0 hi, List.getD_eq_getElem a 0 hj]
    exact List.pairwise_iff_getElem.mp hs i j hi hj hlt
  · have heq : i = j := Nat.le_antisymm hij hge
    subst heq
    exact le_refl _

theorem bisect_go_eq (a : List Nat) (x : Nat) (hs : List.Pairwise (· ≤ ·) a) :
    ∀ (fuel lo hi : Nat), hi - lo ≤ fuel → hi ≤ a.length → lo ≤ hi →
      (∀ i, i < lo → a.getD i 0 ≤ x) →
      (∀ i, hi ≤ i → i < a.length → x < a.getD i 0) →
      bisect_right_go a x fuel lo hi = a.countP (fun v => decide (v ≤ x)) := by
  intro fuel
  induction fuel with
  | zero =>
    intro lo hi hfu hlen hlohi h1 h2
    have heq : lo = hi := by omega
    subst heq
    exact (countP_eq_of_cut x a lo (by omega) h1 h2).symm
  | succ fuel ih =>
    intro lo hi hfu hlen hlohi h1 h2
    rw [bisect_right_go]
    by_cases hlt : lo < hi
    · rw [if_pos hlt]
      have hm1 : lo ≤ (lo + hi) / 2 := by omega
      have hm2 : (lo + hi) / 2 < hi := by omega
      by_cases hx : x < a.getD ((lo + hi) / 2) 0
      · rw [if_pos hx]
        apply ih lo ((lo + hi) / 2) (by omega) (by omega) hm1 h1
        intro i hi2 hi3
        rcases Nat.lt_or_ge i hi with hlt2 | hge2
        · exact Nat.lt_of_lt_of_le hx (sorted_getD_mono a hs ((lo + hi) / 2) i hi2 hi3)
        · exact h2 i hge2 hi3
      · rw [if_neg hx]
        push_neg at hx
        apply ih ((lo + hi) / 2 + 1) hi (by omega) hlen (by omega) ?_ h2
        intro i hi2
        rcases Nat.lt_or_ge i lo with hlt2 | hge2
        · exact h1 i hlt2
        · have hmidlen : (lo + hi) / 2 < a.length := by omega
          exact le_trans (sorted_getD_mono a hs i ((lo + hi) / 2) (by omega) hmidlen) hx
    · rw [if_neg hlt]
      have heq : lo = hi := by omega
      subst heq
      exact (countP_eq_of_cut x a lo (by omega) h1 h2).symm

theorem bisect_right_eq_countP (a : List Nat) (x : Nat)
    (hs : List.Pairwise (· ≤ ·) a) :
    bisect_right a x = a.countP (fun v => decide (v ≤ x)) :=
  bisect_go_eq a x hs a.length 0 a.length (by omega) (Nat.le_refl _) (Nat.zero_le _)
    (fun i hi => absurd hi (Nat.not_lt_zero i))
    (fun i hi hlen => absurd hlen (by omega))

/-! Checkpoint-loop lemmas. -/

theorem epochBody_bestAcc_le {W O : Type} (netOf : Nat → W) (optOf : Nat → O)
    (accOf : Nat → ℚ) (s : TrainFiles W O) (epoch : Nat) :
    s.bestAcc ≤ (epochBody netOf optOf accOf s epoch).bestAcc := by
  by_cases h : s.bestAcc < accOf epoch <;> simp [epochBody, h]
  exact le_of_lt h

theorem bestAcc_mono_foldl {W O : Type} (netOf : Nat → W) (optOf : Nat → O)
    (accOf : Nat → ℚ) :
    ∀ (l : List Nat) (s : TrainFiles W O),
      s.bestAcc ≤ (l.foldl (epochBody netOf optOf accOf) s).bestAcc := by
  intro l
  induction l with
  | nil => intro s; simp
  | cons a t ih =>
    intro s
    calc s.bestAcc ≤ (epochBody netOf optOf accOf s a).bestAcc :=
          epochBody_bestAcc_le netOf optOf accOf s a
      _ ≤ _ := ih _

theorem tinyNet_wf : WellFormed tinyNet := by
  intro i
  refine ⟨rfl, ?_⟩
  intro b hb
  simp only [tinyNet, Option.mem_def, Option.some.injEq] at hb
  subst hb
  rfl

theorem tinyNet_attention_eval : attentionOf oneExp tinyNet [] = [[1]] := by
  norm_num [attentionOf, energyOf, projQOf, projKOf, pooledFeat, stackIdxs, softmaxRow,
    Linear.apply, dot, tinyNet, oneExp]

theorem tinyNet_forward_eval : forward oneExp tinyNet [] = ([[0]], [[0]], [1]) := by
  norm_num [forward, proOf, xmOf, tempOutOf, attentionOf, energyOf, projQOf, projKOf,
    pooledFeat, stackIdxs, softmaxRow, Linear.apply, dot, addVec, tinyNet, oneExp,
    List.range_succ, List.getD]

/-- C1 as stated is false on the code: `_forward` loops over
`range(1, number_net - 1)`, so the stack holds branches `0 .. number_net - 2`
only.  At a concrete two-branch network, `pro` and `x_m` have 1 slice, not
`number_net = 2`. -/
theorem c1_counterexample :
    2 ≤ tinyNet.number_net ∧
    (forward oneExp tinyNet []).1.length ≠ tinyNet.number_net ∧
    (forward oneExp tinyNet []).2.1.length ≠ tinyNet.number_net := by decide

/-- C1 (amended): for every forward pass with `number_net ≥ 2` and
well-formed classifiers, `pro` and `x_m` both have `number_net - 1` slices of
length `num_classes` along the branch axis, and slice `i` of `pro` equals
branch `i`'s standalone classifier output. -/
theorem c1_stack_shapes (e : ℚ → ℚ) (m : OkddipResNet) (x : List ℚ)
    (hN : 2 ≤ m.number_net) (hwf : WellFormed m) :
    (forward e m x).1.length = m.number_net - 1 ∧
    (forward e m x).2.1.length = m.number_net - 1 ∧
    (∀ s ∈ (forward e m x).1, s.length = m.num_classes) ∧
    (∀ s ∈ (forward e m x).2.1, s.length = m.num_classes) ∧
    (∀ i, i < m.number_net - 1 →
      (forward e m x).1.getD i [] = (m.classifier i).apply (pooledFeat m x i)) := by
  refine ⟨proOf_length m x hN, ?_, ?_, ?_, ?_⟩
  · show (xmOf e m x).length = _
    rw [xmOf, List.length_map, attentionOf_length e m x hN]
  · intro s hs
    rw [show (forward e m x).1 = proOf m x from rfl, proOf, List.mem_map] at hs
    obtain ⟨i, _, rfl⟩ := hs
    exact Linear.apply_length _ _ _ (hwf i).1 (hwf i).2
  · intro s hs
    rw [show (forward e m x).2.1 = xmOf e m x from rfl, xmOf, List.mem_map] at hs
    obtain ⟨row, _, rfl⟩ := hs
    simp
  · intro i hi
    show (proOf m x).getD i [] = _
    rw [proOf, stackIdxs_eq_range _ hN, getD_map_range _ _ _ _ hi]

/-- Witness for C1's amended theorem at a concrete two-branch network. -/
theorem c1_stack_shapes_witness :
    (forward oneExp tinyNet []).1.length = tinyNet.number_net - 1 ∧
    (forward oneExp tinyNet []).2.1.length = tinyNet.number_net - 1 ∧
    (forward oneExp tinyNet []).1.getD 0 [] =
      (tinyNet.classifier 0).apply (pooledFeat tinyNet [] 0) := by
  obtain ⟨h1, h2, _, _, h5⟩ := c1_stack_shapes oneExp tinyNet [] (by decide) tinyNet_wf
  exact ⟨h1, h2, h5 0 (by decide)⟩

/-- C2 as stated is false on the code: at a concrete two-branch network the
stack has no slice at index `number_net - 1` at all, and the standalone
third return value equals no slice of the stack. -/
theorem c2_counterexample :
    (forward oneExp tinyNet []).1[tinyNet.number_net - 1]? = none ∧
    (forward oneExp tinyNet []).2.2 ∉ (forward oneExp tinyNet []).1 := by
  rw [tinyNet_forward_eval]
  refine ⟨rfl, ?_⟩
  norm_num

/-- C2 (amended): the third returned value is branch `number_net - 1`'s
standalone classifier output — `classifier_{N-1}` applied to the pooled
output of `layer3_{N-1}` — and it is not a slice of `pro`: the stack covers
only branches `0 .. number_net - 2`, so it has no slice at index
`number_net - 1`. -/
theorem c2_peer_output (e : ℚ → ℚ) (m : OkddipResNet) (x : List ℚ)
    (hN : 2 ≤ m.number_net) :
    (forward e m x).2.2 =
      (m.classifier (m.number_net - 1)).apply
        (m.tailPooled (m.number_net - 1) (m.trunk x)) ∧
    (forward e m x).1[m.number_net - 1]? = none := by
  refine ⟨rfl, ?_⟩
  exact List.getElem?_eq_none (le_of_eq (proOf_length m x hN))

/-- Witness for C2's amended theorem at a concrete two-branch network. -/
theorem c2_peer_output_witness :
    (forward oneExp tinyNet []).2.2 =
      (tinyNet.classifier (tinyNet.number_net - 1)).apply
        (tinyNet.tailPooled (tinyNet.number_net - 1) (tinyNet.trunk [])) ∧
    (forward oneExp tinyNet []).1[tinyNet.number_net - 1]? = none :=
  c2_peer_output oneExp tinyNet [] (by decide)

/-- C3: with a strictly positive exponential, every row of the attention
matrix `F.softmax(energy, dim=-1)` sums to 1: each row is a probability
distribution over the stacked source branches. -/
theorem c3_attention_rows_sum_one (e : ℚ → ℚ) (m : OkddipResNet) (x : List ℚ)
    (he : ∀ t, 0 < e t) :
    ∀ row ∈ attentionOf e m x, row.sum = 1 := by
  intro row hrow
  obtain ⟨r, _, hreq, hne, _⟩ := attention_row_shape e m x row hrow
  rw [hreq]
  exact softmaxRow_sum e r (sum_map_exp_pos e r he hne)

/-- Witness for C3 at a concrete two-branch network. -/
theorem c3_attention_rows_sum_one_witness :
    ((attentionOf oneExp tinyNet []).getD 0 []).sum = 1 :=
  c3_attention_rows_sum_one oneExp tinyNet [] (fun _ => one_pos) _
    (by rw [tinyNet_attention_eval]; simp)

/-- C4: entry `(c, i)` of the fused output `x_m = bmm(pro, attentionᵀ)` is
`Σ_j attention[i][j] * pro[c][j]`, and the weights of row `i` are
nonnegative and sum to 1, so each fused logit is a convex combination of the
stacked raw branch logits. -/
theorem c4_fused_formula (e : ℚ → ℚ) (m : OkddipResNet) (x : List ℚ)
    (he : ∀ t, 0 < e t) :
    ∀ i c, i < m.number_net - 1 → c < m.num_classes →
      (((forward e m x).2.1.getD i []).getD c 0 =
        ((List.range (m.number_net - 1)).map (fun j =>
          ((attentionOf e m x).getD i []).getD j 0 *
            (((forward e m x).1.getD j []).getD c 0))).sum) ∧
      (∀ w ∈ (attentionOf e m x).getD i [], 0 ≤ w) ∧
      ((attentionOf e m x).getD i []).sum = 1 := by
  intro i c hi hc
  have hN : 2 ≤ m.number_net := by omega
  have hAlen : (attentionOf e m x).length = m.number_net - 1 := attentionOf_length e m x hN
  have hiA : i < (attentionOf e m x).length := by omega
  have hrowmem : (attentionOf e m x).getD i [] ∈ attentionOf e m x := by
    rw [List.getD_eq_getElem _ _ hiA]
    exact List.getElem_mem hiA
  obtain ⟨r, _, hreq, hne, hrlen⟩ := attention_row_shape e m x _ hrowmem
  have hrowlen : ((attentionOf e m x).getD i []).length = m.number_net - 1 := by
    rw [hreq, softmaxRow, List.length_map, hrlen, length_stackIdxs _ hN]
  refine ⟨?_, ?_, ?_⟩
  · show ((xmOf e m x).getD i []).getD c 0 = _
    rw [xmOf]
    have h1 : ((attentionOf e m x).map (fun row =>
        (List.range m.num_classes).map (fun c2 =>
          (List.zipWith (fun w p => w * p.getD c2 0) row (proOf m x)).sum))).getD i []
        = (List.range m.num_classes).map (fun c2 =>
            (List.zipWith (fun w p => w * p.getD c2 0)
              ((attentionOf e m x).getD i []) (proOf m x)).sum) := by
      rw [List.getD_eq_getElem _ _ (by simpa using hiA), List.getElem_map,
        List.getD_eq_getElem _ _ hiA]
    rw [h1, getD_map_range _ _ _ _ hc,
      zipWith_sum_eq_range _ 0 [] (m.number_net - 1) _ _ hrowlen (proOf_length m x hN)]
    rfl
  · rw [hreq]
    exact softmaxRow_nonneg e r he hne
  · rw [hreq]
    exact softmaxRow_sum e r (sum_map_exp_pos e r he hne)

/-- Witness for C4 at a concrete two-branch network. -/
theorem c4_fused_formula_witness :
    ((forward oneExp tinyNet []).2.1.getD 0 []).getD 0 0 =
      ((List.range (tinyNet.number_net - 1)).map (fun j =>
        ((attentionOf oneExp tinyNet []).getD 0 []).getD j 0 *
          (((forward oneExp tinyNet []).1.getD j []).getD 0 0))).sum :=
  (c4_fused_formula oneExp tinyNet [] (fun _ => one_pos) 0 0 (by decide) (by decide)).1

/-- C9: every stacked branch's query embedding is the single shared
`query_weight` applied to that branch's pooled feature, likewise for keys
with the single shared `key_weight`; in particular two branches with equal
pooled features get equal embeddings — there are no per-branch projection
parameters. -/
theorem c9_shared_projections (m : OkddipResNet) (x : List ℚ) :
    ∀ i j, i < m.number_net - 1 → j < m.number_net - 1 →
      ((projQOf m x).getD i [] = m.query_weight.apply (pooledFeat m x i) ∧
        (projKOf m x).getD i [] = m.key_weight.apply (pooledFeat m x i)) ∧
      (pooledFeat m x i = pooledFeat m x j →
        (projQOf m x).getD i [] = (projQOf m x).getD j [] ∧
        (projKOf m x).getD i [] = (projKOf m x).getD j []) := by
  intro i j hi hj
  have hN : 2 ≤ m.number_net := by omega
  have hq : ∀ k, k < m.number_net - 1 →
      (projQOf m x).getD k [] = m.query_weight.apply (pooledFeat m x k) := by
    intro k hk
    rw [projQOf, stackIdxs_eq_range _ hN, getD_map_range _ _ _ _ hk]
  have hk2 : ∀ k, k < m.number_net - 1 →
      (projKOf m x).getD k [] = m.key_weight.apply (pooledFeat m x k) := by
    intro k hk
    rw [projKOf, stackIdxs_eq_range _ hN, getD_map_range _ _ _ _ hk]
  refine ⟨⟨hq i hi, hk2 i hi⟩, ?_⟩
  intro hfe
  rw [hq i hi, hq j hj, hk2 i hi, hk2 j hj, hfe]
  exact ⟨rfl, rfl⟩

/-- Witness for C9 at a concrete two-branch network. -/
theorem c9_shared_projections_witness :
    (projQOf tinyNet []).getD 0 [] = tinyNet.query_weight.apply (pooledFeat tinyNet [] 0) ∧
    (projKOf tinyNet []).getD 0 [] = tinyNet.key_weight.apply (pooledFeat tinyNet [] 0) :=
  (c9_shared_projections tinyNet [] 0 0 (by decide) (by decide)).1

/-- C5: in `_make_layer`, a block gets a learned `conv1x1 + norm` downsample
shortcut exactly when its stride differs from 1 or its input channel count
differs from `planes * expansion`; and in the residual block forward, when
no downsample is installed the unmodified identity input is added before the
final nonlinearity. -/
theorem c5_downsample_iff (expansion : Nat) (st : LayerState)
    (planes blocks stride0 : Nat) (dilate : Bool) :
    (∀ cfg ∈ (_make_layer expansion st planes blocks stride0 dilate).1,
      cfg.hasDownsample = true ↔
        (cfg.stride ≠ 1 ∨ cfg.inplanes ≠ cfg.planes * expansion)) ∧
    (∀ (main : List ℚ → List ℚ) (x : List ℚ),
      blockForward main none x = reluVec (addVec (main x) x)) := by
  constructor
  · intro cfg hcfg
    simp only [_make_layer, List.mem_cons] at hcfg
    rcases hcfg with rfl | hrest
    · simp [Bool.or_eq_true, bne_iff_ne]
    · have hcfg2 := List.eq_of_mem_replicate hrest
      subst hcfg2
      simp
  · intro main x
    rfl

/-- Witness for C5: the first block of a stride-2 stage gets a downsample
shortcut, and the downsample-free block forward adds the raw identity. -/
theorem c5_downsample_iff_witness :
    ((⟨16, 32, 2, true, 1⟩ : BlockCfg).hasDownsample = true ↔
      ((⟨16, 32, 2, true, 1⟩ : BlockCfg).stride ≠ 1 ∨
        (⟨16, 32, 2, true, 1⟩ : BlockCfg).inplanes ≠
          (⟨16, 32, 2, true, 1⟩ : BlockCfg).planes * 1)) ∧
    blockForward id none [1] = reluVec (addVec (id [1]) [1]) :=
  ⟨(c5_downsample_iff 1 ⟨16, 1⟩ 32 2 2 false).1 ⟨16, 32, 2, true, 1⟩ (by decide),
    (c5_downsample_iff 1 ⟨16, 1⟩ 32 2 2 false).2 id [1]⟩

/-- C6: invalid configurations are rejected at construction time, before any
forward pass exists: `BasicBlock.__init__` errors when `groups ≠ 1` or
`base_width ≠ 64` or `dilation > 1`, and `ResNet.__init__` errors when a
provided `replace_stride_with_dilation` does not have length 3. -/
theorem c6_construction_validation :
    (∀ inplanes planes stride groups base_width dilation : Nat,
      groups ≠ 1 ∨ base_width ≠ 64 ∨ 1 < dilation →
      ∃ msg, basicBlockInit inplanes planes stride groups base_width dilation =
        Except.error msg) ∧
    (∀ rswd : List Bool, rswd.length ≠ 3 →
      ∃ msg, resnetInitCheck (some rswd) = Except.error msg) := by
  constructor
  · intro ip p s g bw d h
    by_cases h1 : g ≠ 1 ∨ bw ≠ 64
    · exact ⟨_, by rw [basicBlockInit, if_pos h1]⟩
    · have hd : 1 < d := by tauto
      exact ⟨_, by rw [basicBlockInit, if_neg h1, if_pos hd]⟩
  · intro rswd h
    exact ⟨"replace_stride_with_dilation should be None or a 3-element tuple",
      by rw [resnetInitCheck]; simp [h]⟩

/-- Witness for C6: `groups = 2` is rejected, and a length-1
`replace_stride_with_dilation` is rejected. -/
theorem c6_construction_validation_witness :
    (∃ msg, basicBlockInit 16 16 1 2 64 1 = Except.error msg) ∧
    (∃ msg, resnetInitCheck (some [false]) = Except.error msg) :=
  ⟨c6_construction_validation.1 16 16 1 2 64 1 (Or.inl (by decide)),
    c6_construction_validation.2 [false] (by decide)⟩

/-- C7: under the multistep schedule with sorted milestones, `adjust_lr`
returns `init_lr * 0.1 ^ k` where `k` is the number of milestones that are
at most the current epoch index. -/
theorem c7_multistep_lr (init_lr : ℚ) (sgdr_t : Nat) (milestones : List Nat)
    (cosf : ℚ → ℚ) (epoch : Nat) (eta_max eta_min : ℚ)
    (hs : List.Pairwise (· ≤ ·) milestones) :
    adjust_lr "multistep" init_lr sgdr_t milestones cosf epoch eta_max eta_min =
      init_lr * (1 / 10) ^ milestones.countP (fun v => decide (v ≤ epoch)) := by
  rw [adjust_lr, if_neg (by decide), if_pos rfl, bisect_right_eq_countP milestones epoch hs]

/-- Witness for C7 at the script's default milestones `[150, 225]` and
epoch 160, where exactly one milestone has passed. -/
theorem c7_multistep_lr_witness :
    List.Pairwise (· ≤ ·) [150, 225] ∧
    adjust_lr "multistep" (1 / 10) 300 [150, 225] (fun _ => 0) 160 (1 / 10) 0 =
      (1 / 10) * (1 / 10) ^ ([150, 225] : List Nat).countP (fun v => decide (v ≤ 160)) :=
  ⟨by decide, c7_multistep_lr (1 / 10) 300 [150, 225] (fun _ => 0) 160 (1 / 10) 0 (by decide)⟩

/-- C8: every iteration of the epoch loop writes the checkpoint
`{net, acc, epoch, optimizer}` to the fixed path; it is copied to the best
path exactly when the epoch's test accuracy strictly exceeds the best
accuracy so far, which is updated to that accuracy and never decreases
across the loop. -/
theorem c8_checkpoint_epoch {W O : Type} (netOf : Nat → W) (optOf : Nat → O)
    (accOf : Nat → ℚ) (s : TrainFiles W O) (epoch : Nat)
    (s0 : TrainFiles W O) (start_epoch epochs : Nat) :
    (epochBody netOf optOf accOf s epoch).ckptFile =
      some ⟨netOf epoch, accOf epoch, epoch, optOf epoch⟩ ∧
    (epochBody netOf optOf accOf s epoch).bestFile =
      (if s.bestAcc < accOf epoch then some ⟨netOf epoch, accOf epoch, epoch, optOf epoch⟩
        else s.bestFile) ∧
    (epochBody netOf optOf accOf s epoch).bestAcc =
      (if s.bestAcc < accOf epoch then accOf epoch else s.bestAcc) ∧
    s.bestAcc ≤ (epochBody netOf optOf accOf s epoch).bestAcc ∧
    s0.bestAcc ≤ (mainLoop netOf optOf accOf start_epoch epochs s0).bestAcc := by
  refine ⟨?_, ?_, ?_, epochBody_bestAcc_le netOf optOf accOf s epoch,
    bestAcc_mono_foldl netOf optOf accOf _ s0⟩
  · by_cases h : s.bestAcc < accOf epoch <;> simp [epochBody, h]
  · by_cases h : s.bestAcc < accOf epoch <;> simp [epochBody, h]
  · by_cases h : s.bestAcc < accOf epoch <;> simp [epochBody, h]

/-- C10: under the SGDR schedule, the learning rate computed through
`train`'s call (which passes no `eta_max`/`eta_min`, so the defaults
`0.1` and `0.` apply) is unchanged when the configured initial learning
rate (and the milestone list) changes, and it equals the cosine-restart
formula built from the epoch index, `sgdr_t`, and the default etas alone. -/
theorem c10_sgdr_independent_of_init_lr (init_lr init_lr2 : ℚ) (sgdr_t : Nat)
    (ms ms2 : List Nat) (cosf : ℚ → ℚ) (epoch : Nat) :
    trainAdjustLr "SGDR" init_lr sgdr_t ms cosf epoch =
      trainAdjustLr "SGDR" init_lr2 sgdr_t ms2 cosf epoch ∧
    trainAdjustLr "SGDR" init_lr sgdr_t ms cosf epoch =
      0 + (1 / 2) * ((1 / 10) - 0) *
        (1 + cosf (((epoch : ℚ) -
            (sgdr_t : ℚ) * ((2 : ℚ) ^ Nat.log2 ((epoch + sgdr_t) / sgdr_t) - 1)) /
          ((sgdr_t : ℚ) * (2 : ℚ) ^ Nat.log2 ((epoch + sgdr_t) / sgdr_t)))) := by
  constructor <;> rw [trainAdjustLr, adjust_lr, if_pos rfl]
  rw [trainAdjustLr, adjust_lr, if_pos rfl]

end MCLOKD
